import Mathlib
/-!
Shallow embedding of the checkpoint save/load mechanism of the
`6_Saving_and_Loading_Models` notebook (section `s1_getting_started`
of the repository).

The notebook builds a fully connected classifier `fc_model.Network`,
saves a checkpoint dictionary holding the architecture metadata together
with the parameter `state_dict`, and reconstructs a model from such a
checkpoint with `load_checkpoint`.  The numeric payload of a parameter
tensor is irrelevant to the protocol: tensors are embedded as a shape
(list of dimensions) plus a flat list of raw 32-bit patterns of the
underlying floating point entries, so that serialization fidelity
(including NaN / Inf payloads) is expressible without floating point
arithmetic.
-/
set_option maxRecDepth 20000

/-- A parameter tensor: its shape and its flat data.  Each data entry is
the raw 32-bit pattern of one floating point value (a natural number
below 2 to the 32), so elementwise equality of tensors is bit-identity
of the stored floats. -/
structure Tensor where
  shape : List Nat
  data : List Nat

deriving DecidableEq

/-- Modelled from the spec: one fully connected layer of the collaborator
model (the notebook's `nn.Linear(in_features, out_features)`; the file
`fc_model.py` itself is not part of the source tree, but the notebook
prints the exact layer structure).  The weight matrix has shape
`[out_features, in_features]` and the bias vector has shape
`[out_features]`. -/
structure Linear where
  in_features : Nat
  out_features : Nat
  weight : Tensor
  bias : Tensor

deriving DecidableEq

/-- A freshly constructed `nn.Linear`: correct shapes, zero-initialised
data (the notebook's random initialisation is irrelevant to the
checkpoint protocol, because a successful load overwrites every
parameter). -/
def Linear.init (inF outF : Nat) : Linear :=
  { in_features := inF, out_features := outF,
    weight := { shape := [outF, inF], data := List.replicate (outF * inF) 0 },
    bias := { shape := [outF], data := List.replicate outF 0 } }

/-- Modelled from the spec: the collaborator model `fc_model.Network`,
exposing its architecture (input size, output size, ordered hidden
layers) and its parameters.  The notebook prints this structure for
`Network(784, 10, [512, 256, 128])`: a ModuleList of hidden Linear
layers followed by one output Linear layer (the dropout module carries
no parameters and is omitted). -/
structure Network where
  input_size : Nat
  output_size : Nat
  hidden_layers : List Linear
  output : Linear

deriving DecidableEq

/-- The chain of hidden layers: the first takes `inF` inputs, each later
layer takes the previous layer's outputs (the notebook's
`zip(hidden_layers[:-1], hidden_layers[1:])` construction). -/
def mkHiddenLayers (inF : Nat) : List Nat → List Linear
  | [] => []
  | h :: rest => Linear.init inF h :: mkHiddenLayers h rest

/-- The last element of `h0 :: rest` (the Python `hidden_layers[-1]`). -/
def lastSize (h0 : Nat) (rest : List Nat) : Nat :=
  rest.foldl (fun _ b => b) h0

/-- Modelled from the spec: `fc_model.Network(input_size, output_size,
h0 :: rest)` with a non-empty list of hidden sizes. -/
def Network.build (inF outF h0 : Nat) (rest : List Nat) : Network :=
  { input_size := inF, output_size := outF,
    hidden_layers := mkHiddenLayers inF (h0 :: rest),
    output := Linear.init (lastSize h0 rest) outF }

/-- Modelled from the spec: the `fc_model.Network` constructor.  Python
raises an IndexError on `hidden_layers[0]` when the hidden size list is
empty, so construction is partial. -/
def Network.create (inF outF : Nat) : List Nat → Option Network
  | [] => none
  | h0 :: rest => some (Network.build inF outF h0 rest)

/-- The state-dict key of hidden layer `i`'s weight, as printed by the
notebook: `hidden_layers.0.weight` and so on. -/
def hwKey (i : Nat) : String :=
  "hidden_layers." ++ toString i ++ ".weight"

/-- The state-dict key of hidden layer `i`'s bias. -/
def hbKey (i : Nat) : String :=
  "hidden_layers." ++ toString i ++ ".bias"

/-- The ordered state-dict entries of the hidden layers, starting at
index `i`. -/
def stateEntriesAux (i : Nat) : List Linear → List (String × Tensor)
  | [] => []
  | l :: rest =>
    (hwKey i, l.weight) :: (hbKey i, l.bias) :: stateEntriesAux (i + 1) rest

/-- The model's ordered parameter record, with exactly the keys the
notebook prints: `hidden_layers.i.weight`, `hidden_layers.i.bias` for
each hidden layer and finally `output.weight`, `output.bias`. -/
def Network.state_dict (m : Network) : List (String × Tensor) :=
  stateEntriesAux 0 m.hidden_layers ++
    [("output.weight", m.output.weight), ("output.bias", m.output.bias)]

/-- Dictionary lookup by string key (first match), mirroring a Python
dict subscript over the keyed parameter record. -/
def lookupT : List (String × Tensor) → String → Option Tensor
  | [], _ => none
  | (k, t) :: rest, key => if k = key then some t else lookupT rest key

/-- String membership in a list of keys. -/
def memStr (k : String) : List String → Bool
  | [] => false
  | x :: xs => if x = k then true else memStr k xs

/-- A recorded size mismatch: the offending key, the tensor shape found
in the checkpoint and the shape expected by the current model, in the
order of the framework's error message. -/
structure Mismatch where
  key : String
  ckptShape : List Nat
  modelShape : List Nat

deriving DecidableEq

/-- The distinct failures a load can surface, abstracting the Python
exceptions: a KeyError from a checkpoint dict subscript, an IndexError
from constructing a Network with an empty hidden list, a TypeError from
a malformed field, and the RuntimeError raised by `load_state_dict`,
which carries the unexpected keys, the missing keys and the size
mismatches it collected. -/
inductive LoadError where
  | keyError (key : String)
  | indexError
  | typeError (field : String)
  | loadStateDictError (unexpected missing : List String) (mismatches : List Mismatch)

deriving DecidableEq

/-- A load failure contains a shape mismatch. -/
def LoadError.hasShapeMismatch : LoadError → Bool
  | .loadStateDictError _ _ ms => !ms.isEmpty
  | _ => false

/-- A load failure reports missing keys. -/
def LoadError.hasMissingKeys : LoadError → Bool
  | .loadStateDictError _ miss _ => !miss.isEmpty
  | _ => false

/-- A load failure reports unexpected keys. -/
def LoadError.hasUnexpectedKeys : LoadError → Bool
  | .loadStateDictError unexp _ _ => !unexp.isEmpty
  | _ => false

/-- Copy one parameter from the record into the model, as the
framework's parameter-copy loop does: a present key with matching shape
is copied; a present key with a different shape leaves the parameter and
records a size mismatch; an absent key leaves the parameter and records
a missing key. -/
def copyParam (sd : List (String × Tensor)) (key : String) (cur : Tensor) :
    Tensor × List Mismatch × List String :=
  match lookupT sd key with
  | some t =>
    if t.shape = cur.shape then (t, [], [])
    else (cur, [⟨key, t.shape, cur.shape⟩], [])
  | none => (cur, [], [key])

/-- Load the two parameters of one Linear layer from the record. -/
def Linear.loadFrom (l : Linear) (sd : List (String × Tensor)) (kw kb : String) :
    Linear × List Mismatch × List String :=
  let pw := copyParam sd kw l.weight
  let pb := copyParam sd kb l.bias
  ({ l with weight := pw.1, bias := pb.1 }, pw.2.1 ++ pb.2.1, pw.2.2 ++ pb.2.2)

/-- Load every hidden layer, numbering from `i`, collecting size
mismatches and missing keys in parameter order. -/
def loadHidden (sd : List (String × Tensor)) (i : Nat) :
    List Linear → List Linear × List Mismatch × List String
  | [] => ([], [], [])
  | l :: rest =>
    let p := l.loadFrom sd (hwKey i) (hbKey i)
    let q := loadHidden sd (i + 1) rest
    (p.1 :: q.1, p.2.1 ++ q.2.1, p.2.2 ++ q.2.2)

/-- The framework's `Module.load_state_dict(state_dict, strict)`: every
model parameter whose key is present with the right shape is copied;
size mismatches are always collected as errors; missing and unexpected
keys are errors exactly when `strict` is true (the notebook's calls use
the default `strict := true`).  If any error was collected the call
raises, returning the RuntimeError value; otherwise the fully updated
model is returned. -/
def Network.load_state_dict (m : Network) (sd : List (String × Tensor))
    (strict : Bool) : Except LoadError Network :=
  let hp := loadHidden sd 0 m.hidden_layers
  let op := m.output.loadFrom sd "output.weight" "output.bias"
  let mismatches := hp.2.1 ++ op.2.1
  let missing := hp.2.2 ++ op.2.2
  let modelKeys := (m.state_dict).map Prod.fst
  let unexpected := (sd.map Prod.fst).filter (fun k => !(memStr k modelKeys))
  let fatalMissing := if strict then missing else []
  let fatalUnexpected := if strict then unexpected else []
  if mismatches.isEmpty && fatalMissing.isEmpty && fatalUnexpected.isEmpty then
    .ok { m with hidden_layers := hp.1, output := op.1 }
  else
    .error (.loadStateDictError fatalUnexpected fatalMissing mismatches)

/-- The composite checkpoint the notebook persists: architecture
metadata plus the keyed parameter record. -/
structure Checkpoint where
  input_size : Nat
  output_size : Nat
  hidden_layers : List Nat
  state_dict : List (String × Tensor)

deriving DecidableEq

/-- The notebook's checkpoint-building cell, verbatim: `input_size` and
`output_size` are written as the literals 784 and 10, while the hidden
layer sizes are read from the live model (`each.out_features for each in
model.hidden_layers`) and the parameter record is the model's
`state_dict`.  Serialization with `torch.save` and deserialization with
`torch.load` are value-faithful per the spec's persisted-format
requirement, so the persisted blob is embedded as the checkpoint value
itself. -/
def saveCheckpoint (m : Network) : Checkpoint :=
  { input_size := 784,
    output_size := 10,
    hidden_layers := m.hidden_layers.map Linear.out_features,
    state_dict := m.state_dict }

/-- The notebook's `load_checkpoint`: construct a fresh
`fc_model.Network` from the checkpoint's architecture fields, then load
the checkpoint's state dict into it (with the framework's default
`strict := true`). -/
def load_checkpoint (c : Checkpoint) : Except LoadError Network :=
  match Network.create c.input_size c.output_size c.hidden_layers with
  | none => .error .indexError
  | some m => m.load_state_dict c.state_dict true

/-- Shape validity of one layer: the weight is an `out × in` matrix and
the bias an `out` vector, with data lengths matching the shapes. -/
def Linear.wf (l : Linear) : Bool :=
  decide (l.weight.shape = [l.out_features, l.in_features]) &&
  decide (l.weight.data.length = l.out_features * l.in_features) &&
  decide (l.bias.shape = [l.out_features]) &&
  decide (l.bias.data.length = l.out_features)

/-- The hidden chain is well formed when each layer consumes the
previous layer's outputs (starting from `sz`), each layer's size is
positive, and each layer's tensors have the right shapes. -/
def hiddenOk (sz : Nat) : List Linear → Bool
  | [] => true
  | l :: rest =>
    decide (l.in_features = sz) && decide (0 < l.out_features) && l.wf &&
    hiddenOk l.out_features rest

/-- The output size of the last layer of the chain, defaulting to `sz`
for the empty chain. -/
def chainOut (sz : Nat) : List Linear → Nat
  | [] => sz
  | l :: rest => chainOut l.out_features rest

/-- A valid model in the sense of the spec's architecture descriptor:
positive input and output sizes, a non-empty hidden chain of positive
sizes wired consecutively, an output layer consuming the last hidden
size, and every parameter tensor of the shape the descriptor implies. -/
def Network.wf (m : Network) : Bool :=
  decide (0 < m.input_size) && decide (0 < m.output_size) &&
  !m.hidden_layers.isEmpty &&
  hiddenOk m.input_size m.hidden_layers &&
  decide (m.output.in_features = chainOut m.input_size m.hidden_layers) &&
  decide (m.output.out_features = m.output_size) &&
  m.output.wf

deriving instance DecidableEq for Except

/-- Remove one key from a parameter record (a Python `del sd[key]`). -/
def removeKey (sd : List (String × Tensor)) (key : String) :
    List (String × Tensor) :=
  sd.filter (fun p => !(decide (p.1 = key)))

/-!
Decimal key arithmetic: the state-dict keys embed the hidden layer index
through the decimal printer, so reasoning about key lookups needs
injectivity of the printer.  The reference function `natChars` mirrors
the core fuel-based printer and is proved equal to it.
-/

/-- The decimal digit characters of a natural number, most significant
first. -/
def natChars (n : Nat) : List Char :=
  if n < 10 then [Nat.digitChar n]
  else natChars (n / 10) ++ [Nat.digitChar (n % 10)]
decreasing_by exact Nat.div_lt_self (by omega) (by omega)

/-- The ordered key list of `n` hidden layers starting at index `i`. -/
def keyList (i : Nat) : Nat → List String
  | 0 => []
  | n + 1 => hwKey i :: hbKey i :: keyList (i + 1) n

/-!
Non-finite bit patterns, and the dynamic view of a persisted file.
-/

/-- An IEEE-754 single precision NaN: a 32-bit pattern whose exponent
bits are all ones and whose mantissa is non-zero. -/
def isNaN32 (b : Nat) : Bool :=
  decide (b < 2 ^ 32) && decide ((b / 2 ^ 23) % 2 ^ 8 = 2 ^ 8 - 1) &&
    !(decide (b % 2 ^ 23 = 0))

/-- An IEEE-754 single precision infinity: exponent bits all ones and a
zero mantissa. -/
def isInf32 (b : Nat) : Bool :=
  decide (b < 2 ^ 32) && decide ((b / 2 ^ 23) % 2 ^ 8 = 2 ^ 8 - 1) &&
    decide (b % 2 ^ 23 = 0)

/-- A deserialized Python object as `torch.load` hands it back: an int,
a list of ints, a tensor, or a string-keyed dictionary.  The notebook's
files hold either a bare state dict or the composite checkpoint dict. -/
inductive PyValue where
  | nat (n : Nat)
  | nats (l : List Nat)
  | tensor (t : Tensor)
  | dict (entries : List (String × PyValue))

/-- Python dict subscription `obj[key]`: a KeyError when absent. -/
def dictGet : List (String × PyValue) → String → Except LoadError PyValue
  | [], key => .error (.keyError key)
  | (k, v) :: rest, key => if k = key then .ok v else dictGet rest key

/-- Reading an int-valued checkpoint field. -/
def PyValue.asNat : PyValue → Except LoadError Nat
  | .nat n => .ok n
  | _ => .error (.typeError "int")

/-- Reading the list of hidden sizes. -/
def PyValue.asNats : PyValue → Except LoadError (List Nat)
  | .nats l => .ok l
  | _ => .error (.typeError "list")

/-- Reading the entries of a persisted state dict back into a keyed
tensor record. -/
def entriesToRecord :
    List (String × PyValue) → Except LoadError (List (String × Tensor))
  | [] => .ok []
  | (k, v) :: rest =>
    match v with
    | .tensor t => (entriesToRecord rest).map (fun r => (k, t) :: r)
    | _ => .error (.typeError "tensor")

/-- Reading the `state_dict` field. -/
def PyValue.asRecord : PyValue → Except LoadError (List (String × Tensor))
  | .dict entries => entriesToRecord entries
  | _ => .error (.typeError "dict")

/-- The notebook's `load_checkpoint` applied to an arbitrary
deserialized file: it subscripts the fields `input_size`, `output_size`
and `hidden_layers` (the arguments of the `fc_model.Network` call, in
evaluation order) and then `state_dict`, all before any model exists;
only then does it construct the model and load the record into it. -/
def load_checkpoint_file (v : PyValue) : Except LoadError Network :=
  match v with
  | .dict entries => do
    let vin ← dictGet entries "input_size"
    let inS ← vin.asNat
    let vout ← dictGet entries "output_size"
    let outS ← vout.asNat
    let vh ← dictGet entries "hidden_layers"
    let hidS ← vh.asNats
    let vsd ← dictGet entries "state_dict"
    let sd ← vsd.asRecord
    load_checkpoint ⟨inS, outS, hidS, sd⟩
  | _ => .error (.typeError "dict")

/-- The composite checkpoint as the persisted dynamic object (the
checkpoint-building cell followed by `torch.save`). -/
def Checkpoint.toFile (c : Checkpoint) : PyValue :=
  .dict [("input_size", .nat c.input_size),
         ("output_size", .nat c.output_size),
         ("hidden_layers", .nats c.hidden_layers),
         ("state_dict", .dict (c.state_dict.map (fun p => (p.1, .tensor p.2))))]

/-- A bare parameter record as the persisted dynamic object (the cell
`torch.save(model.state_dict(), checkpoint.pth)`). -/
def bareRecordFile (sd : List (String × Tensor)) : PyValue :=
  .dict (sd.map (fun p => (p.1, .tensor p.2)))

/-!
Concrete instances used by the claims: the notebook's two architectures
and small variants.
-/

/-- The notebook's trained architecture. -/
def net512 : Network := Network.build 784 10 512 [256, 128]

/-- The notebook's mismatching architecture. -/
def net400 : Network := Network.build 784 10 400 [200, 100]

/-- A small valid model. -/
def netSmall : Network := Network.build 3 2 4 []

/-- A small model of a different hidden size than `netSmall`. -/
def netOther : Network := Network.build 3 2 5 []

/-- A valid model whose input and output sizes differ from the ones the
checkpoint cell hard-codes. -/
def netC1x : Network := Network.build 2 1 3 []

/-- Another valid model with non-matching input and output sizes. -/
def netC9x : Network := Network.build 5 2 3 []

/-- Valid models matching the hard-coded checkpoint metadata. -/
def mdl784 : Network := Network.build 784 10 1 []

/-- A second such model. -/
def mdl784b : Network := Network.build 784 10 2 []

/-- A third such model. -/
def mdl784c : Network := Network.build 784 10 3 []

/-- A fourth such model. -/
def mdl784d : Network := Network.build 784 10 5 []

/-- The canonical quiet-NaN bit pattern of a single precision float. -/
def nanBits : Nat := 2143289344

/-- A bias tensor whose first entry is a NaN. -/
def nanTensor : Tensor := ⟨[10], nanBits :: List.replicate 9 0⟩

/-- A valid model with non-matching sizes holding a NaN parameter. -/
def netC6x : Network :=
  { input_size := 2, output_size := 1,
    hidden_layers := mkHiddenLayers 2 [3],
    output := ⟨3, 1, ⟨[1, 3], List.replicate 3 0⟩, ⟨[1], [nanBits]⟩⟩ }

/-- A valid model matching the hard-coded metadata whose output bias
holds a NaN entry. -/
def netW6 : Network :=
  { input_size := 784, output_size := 10,
    hidden_layers := mkHiddenLayers 784 [1],
    output := ⟨1, 10, ⟨[10, 1], List.replicate 10 0⟩, nanTensor⟩ }

/-- The checkpoint-building cell as a whole: it reads the model's
hidden layers and state dict to build the checkpoint and contains no
assignment to the model, so the model variable after the cell holds the
unchanged model. -/
def saveCell (m : Network) : Checkpoint × Network := (saveCheckpoint m, m)

/-- Two consecutive saves of the same unchanged model; the manager holds
no state between the calls, each checkpoint is computed from the model
alone. -/
def saveTwice (m : Network) : Checkpoint × Checkpoint :=
  (saveCheckpoint m, saveCheckpoint m)

/-- The error the notebook's mismatched-architecture cell reports: one
size mismatch per parameter whose shapes differ, in parameter order,
with no missing and no unexpected keys. -/
def shapeErr512to400 : LoadError :=
  .loadStateDictError [] []
    [⟨"hidden_layers.0.weight", [512, 784], [400, 784]⟩,
     ⟨"hidden_layers.0.bias", [512], [400]⟩,
     ⟨"hidden_layers.1.weight", [256, 512], [200, 400]⟩,
     ⟨"hidden_layers.1.bias", [256], [200]⟩,
     ⟨"hidden_layers.2.weight", [128, 256], [100, 200]⟩,
     ⟨"hidden_layers.2.bias", [128], [100]⟩,
     ⟨"output.weight", [10, 128], [10, 100]⟩]

example : Network.create 3 2 [4] = some (Network.build 3 2 4 []) := rfl

example :
    (Network.build 3 2 4 []).state_dict =
      [("hidden_layers.0.weight", ⟨[4, 3], List.replicate 12 0⟩),
       ("hidden_layers.0.bias", ⟨[4], List.replicate 4 0⟩),
       ("output.weight", ⟨[2, 4], List.replicate 8 0⟩),
       ("output.bias", ⟨[2], List.replicate 2 0⟩)] := by decide

example : (Network.build 3 2 4 []).wf = true := by decide

example :
    load_checkpoint (saveCheckpoint (Network.build 784 10 1 [])) =
      .ok (Network.build 784 10 1 []) := by decide

theorem natChars_lt {n : Nat} (h : n < 10) :
    natChars n = [Nat.digitChar n] := by
  rw [natChars, if_pos h]

theorem natChars_ge {n : Nat} (h : ¬ n < 10) :
    natChars n = natChars (n / 10) ++ [Nat.digitChar (n % 10)] := by
  conv_lhs => rw [natChars]
  rw [if_neg h]

theorem natChars_ne_nil (n : Nat) : natChars n ≠ [] := by
  by_cases h : n < 10
  · rw [natChars_lt h]; simp
  · rw [natChars_ge h]; simp

theorem toDigitsCore_eq_natChars (fuel n : Nat) (ds : List Char)
    (h : n < fuel) : Nat.toDigitsCore 10 fuel n ds = natChars n ++ ds := by
  induction fuel generalizing n ds with
  | zero => omega
  | succ f ih =>
    show (if n / 10 = 0 then Nat.digitChar (n % 10) :: ds
          else Nat.toDigitsCore 10 f (n / 10) (Nat.digitChar (n % 10) :: ds)) =
        natChars n ++ ds
    by_cases h0 : n / 10 = 0
    · have hn : n < 10 := by omega
      rw [if_pos h0, natChars_lt hn, Nat.mod_eq_of_lt hn]
      rfl
    · have hge : ¬ n < 10 := by omega
      have hlt : n / 10 < f := by omega
      rw [if_neg h0, ih _ _ hlt, natChars_ge hge, List.append_assoc]
      rfl

theorem digitChar_inj_lt :
    ∀ m < 10, ∀ n < 10, Nat.digitChar m = Nat.digitChar n → m = n := by decide

theorem natChars_inj (m : Nat) : ∀ n, natChars m = natChars n → m = n := by
  induction m using Nat.strong_induction_on with
  | _ m ih =>
    intro n h
    by_cases hm : m < 10 <;> by_cases hn : n < 10
    · rw [natChars_lt hm, natChars_lt hn] at h
      exact digitChar_inj_lt m hm n hn (List.cons.injEq .. ▸ h).1
    · rw [natChars_lt hm, natChars_ge hn] at h
      have := congrArg List.length h
      simp at this
      exact absurd this (natChars_ne_nil (n / 10))
    · rw [natChars_ge hm, natChars_lt hn] at h
      have := congrArg List.length h
      simp at this
      exact absurd this (natChars_ne_nil (m / 10))
    · rw [natChars_ge hm, natChars_ge hn] at h
      have hrev := congrArg List.reverse h
      simp only [List.reverse_append, List.reverse_cons, List.reverse_nil,
        List.nil_append, List.singleton_append, List.cons.injEq] at hrev
      have hmod : m % 10 = n % 10 :=
        digitChar_inj_lt (m % 10) (Nat.mod_lt _ (by omega)) (n % 10)
          (Nat.mod_lt _ (by omega)) hrev.1
      have hdiv : m / 10 = n / 10 :=
        ih (m / 10) (Nat.div_lt_self (by omega) (by omega)) (n / 10)
          (List.reverse_injective hrev.2)
      omega

theorem natRepr_inj {m n : Nat} (h : Nat.repr m = Nat.repr n) : m = n := by
  have hm : Nat.repr m = ⟨natChars m⟩ := by
    show (Nat.toDigits 10 m).asString = _
    rw [Nat.toDigits, toDigitsCore_eq_natChars _ _ _ (Nat.lt_succ_self m)]
    simp [List.asString]
  have hn : Nat.repr n = ⟨natChars n⟩ := by
    show (Nat.toDigits 10 n).asString = _
    rw [Nat.toDigits, toDigitsCore_eq_natChars _ _ _ (Nat.lt_succ_self n)]
    simp [List.asString]
  rw [hm, hn] at h
  exact natChars_inj m n (congrArg String.data h)

theorem toString_nat_eq (n : Nat) : toString n = Nat.repr n := rfl

theorem natRepr_data_eq (n : Nat) : (Nat.repr n).data = natChars n := by
  show ((Nat.toDigits 10 n).asString).data = _
  rw [Nat.toDigits, toDigitsCore_eq_natChars _ _ _ (Nat.lt_succ_self n)]
  simp [List.asString]

theorem natReprData_inj {m n : Nat}
    (h : (Nat.repr m).data = (Nat.repr n).data) : m = n := by
  rw [natRepr_data_eq, natRepr_data_eq] at h
  exact natChars_inj m n h

theorem hwKey_data (i : Nat) :
    (hwKey i).data =
      "hidden_layers.".data ++ (Nat.repr i).data ++ ".weight".data := rfl

theorem hbKey_data (i : Nat) :
    (hbKey i).data =
      "hidden_layers.".data ++ (Nat.repr i).data ++ ".bias".data := rfl

theorem hwKey_inj {i j : Nat} (h : hwKey i = hwKey j) : i = j := by
  have hd := congrArg String.data h
  rw [hwKey_data, hwKey_data] at hd
  exact natReprData_inj (List.append_cancel_left (List.append_cancel_right hd))

theorem hbKey_inj {i j : Nat} (h : hbKey i = hbKey j) : i = j := by
  have hd := congrArg String.data h
  rw [hbKey_data, hbKey_data] at hd
  exact natReprData_inj (List.append_cancel_left (List.append_cancel_right hd))

theorem hwKey_ne_hbKey (i j : Nat) : hwKey i ≠ hbKey j := by
  intro h
  have hd := congrArg List.reverse (congrArg String.data h)
  rw [hwKey_data, hbKey_data] at hd
  simp only [List.reverse_append] at hd
  rw [show (".weight" : String).data.reverse = 't' :: ['h', 'g', 'i', 'e', 'w', '.'] from rfl,
    show (".bias" : String).data.reverse = 's' :: ['a', 'i', 'b', '.'] from rfl] at hd
  simp only [List.cons_append, List.cons.injEq] at hd
  exact absurd hd.1 (by decide)

theorem head_ne_of_data {s t : String} {a b : Char}
    (h1 : s.data.head? = some a) (h2 : t.data.head? = some b)
    (hab : a ≠ b) : s ≠ t := by
  intro h
  subst h
  rw [h1] at h2
  exact hab (Option.some.injEq .. ▸ h2)

theorem hwKey_head (i : Nat) : (hwKey i).data.head? = some 'h' := rfl

theorem hbKey_head (i : Nat) : (hbKey i).data.head? = some 'h' := rfl

theorem hwKey_ne_outW (i : Nat) : hwKey i ≠ "output.weight" :=
  head_ne_of_data (hwKey_head i) rfl (by decide)

theorem hwKey_ne_outB (i : Nat) : hwKey i ≠ "output.bias" :=
  head_ne_of_data (hwKey_head i) rfl (by decide)

theorem hbKey_ne_outW (i : Nat) : hbKey i ≠ "output.weight" :=
  head_ne_of_data (hbKey_head i) rfl (by decide)

theorem hbKey_ne_outB (i : Nat) : hbKey i ≠ "output.bias" :=
  head_ne_of_data (hbKey_head i) rfl (by decide)

theorem outW_ne_outB : ("output.weight" : String) ≠ "output.bias" := by decide

/-!
Lookup lemmas: where each parameter key is found in a state dict.
-/

theorem memStr_of_mem {k : String} : ∀ {l : List String}, k ∈ l → memStr k l = true := by
  intro l h
  induction l with
  | nil => cases h
  | cons x xs ih =>
    rw [memStr]
    by_cases hx : x = k
    · rw [if_pos hx]
    · rw [if_neg hx]
      cases h with
      | head => exact absurd rfl hx
      | tail _ h2 => exact ih h2

theorem lookupT_append_left {sd rest : List (String × Tensor)} {key : String}
    {t : Tensor} (h : lookupT sd key = some t) :
    lookupT (sd ++ rest) key = some t := by
  induction sd with
  | nil => cases h
  | cons p sd ih =>
    obtain ⟨k, u⟩ := p
    rw [List.cons_append, lookupT]
    rw [lookupT] at h
    by_cases hk : k = key
    · rw [if_pos hk] at h ⊢
      exact h
    · rw [if_neg hk] at h ⊢
      exact ih h

theorem lookup_stateEntries_hw :
    ∀ (hs : List Linear) (i j : Nat) (l : Linear)
      (rest : List (String × Tensor)), hs[j]? = some l →
      lookupT (stateEntriesAux i hs ++ rest) (hwKey (i + j)) = some l.weight := by
  intro hs
  induction hs with
  | nil => intro i j l rest h; simp at h
  | cons x xs ih =>
    intro i j l rest h
    cases j with
    | zero =>
      rw [List.getElem?_cons_zero] at h
      cases h
      simp [stateEntriesAux, lookupT]
    | succ j =>
      rw [List.getElem?_cons_succ] at h
      have hne1 : hwKey i ≠ hwKey (i + (j + 1)) := by
        intro he
        have := hwKey_inj he
        omega
      have hne2 : hbKey i ≠ hwKey (i + (j + 1)) :=
        fun he => hwKey_ne_hbKey (i + (j + 1)) i he.symm
      rw [stateEntriesAux, List.cons_append, List.cons_append, lookupT,
        if_neg hne1, lookupT, if_neg hne2,
        show i + (j + 1) = (i + 1) + j from by omega]
      exact ih (i + 1) j l rest h

theorem lookup_stateEntries_hb :
    ∀ (hs : List Linear) (i j : Nat) (l : Linear)
      (rest : List (String × Tensor)), hs[j]? = some l →
      lookupT (stateEntriesAux i hs ++ rest) (hbKey (i + j)) = some l.bias := by
  intro hs
  induction hs with
  | nil => intro i j l rest h; simp at h
  | cons x xs ih =>
    intro i j l rest h
    cases j with
    | zero =>
      rw [List.getElem?_cons_zero] at h
      cases h
      have hne : hwKey i ≠ hbKey (i + 0) := hwKey_ne_hbKey i (i + 0)
      rw [stateEntriesAux, List.cons_append, List.cons_append, lookupT,
        if_neg hne, lookupT, if_pos (by rw [Nat.add_zero])]
    | succ j =>
      rw [List.getElem?_cons_succ] at h
      have hne1 : hwKey i ≠ hbKey (i + (j + 1)) := hwKey_ne_hbKey i (i + (j + 1))
      have hne2 : hbKey i ≠ hbKey (i + (j + 1)) := by
        intro he
        have := hbKey_inj he
        omega
      rw [stateEntriesAux, List.cons_append, List.cons_append, lookupT,
        if_neg hne1, lookupT, if_neg hne2,
        show i + (j + 1) = (i + 1) + j from by omega]
      exact ih (i + 1) j l rest h

theorem lookup_skip_hidden {key : String}
    (hw : ∀ n, hwKey n ≠ key) (hb : ∀ n, hbKey n ≠ key) :
    ∀ (hs : List Linear) (i : Nat) (rest : List (String × Tensor)),
      lookupT (stateEntriesAux i hs ++ rest) key = lookupT rest key := by
  intro hs
  induction hs with
  | nil => intro i rest; rfl
  | cons x xs ih =>
    intro i rest
    rw [stateEntriesAux, List.cons_append, List.cons_append, lookupT,
      if_neg (hw i), lookupT, if_neg (hb i)]
    exact ih (i + 1) rest

theorem lookup_sd_hw {m : Network} {j : Nat} {l : Linear}
    (h : m.hidden_layers[j]? = some l) :
    lookupT m.state_dict (hwKey j) = some l.weight := by
  have := lookup_stateEntries_hw m.hidden_layers 0 j l
    [("output.weight", m.output.weight), ("output.bias", m.output.bias)] h
  rw [Nat.zero_add] at this
  exact this

theorem lookup_sd_hb {m : Network} {j : Nat} {l : Linear}
    (h : m.hidden_layers[j]? = some l) :
    lookupT m.state_dict (hbKey j) = some l.bias := by
  have := lookup_stateEntries_hb m.hidden_layers 0 j l
    [("output.weight", m.output.weight), ("output.bias", m.output.bias)] h
  rw [Nat.zero_add] at this
  exact this

theorem lookup_sd_outW (m : Network) :
    lookupT m.state_dict "output.weight" = some m.output.weight := by
  rw [Network.state_dict,
    lookup_skip_hidden (fun n => hwKey_ne_outW n) (fun n => hbKey_ne_outW n),
    lookupT, if_pos rfl]

theorem lookup_sd_outB (m : Network) :
    lookupT m.state_dict "output.bias" = some m.output.bias := by
  rw [Network.state_dict,
    lookup_skip_hidden (fun n => hwKey_ne_outB n) (fun n => hbKey_ne_outB n),
    lookupT, if_neg outW_ne_outB, lookupT, if_pos rfl]

/-!
A load from a record whose tensors match the model's shapes copies every
parameter and collects no errors.
-/

theorem chainOut_eq_lastSize :
    ∀ (hs : List Linear) (a : Nat),
      lastSize a (hs.map Linear.out_features) = chainOut a hs := by
  intro hs
  induction hs with
  | nil => intro a; rfl
  | cons x xs ih =>
    intro a
    show lastSize x.out_features (xs.map Linear.out_features) = _
    rw [ih x.out_features]
    rfl

theorem mkHiddenLayers_length :
    ∀ (sizes : List Nat) (sz : Nat), (mkHiddenLayers sz sizes).length = sizes.length := by
  intro sizes
  induction sizes with
  | nil => intro sz; rfl
  | cons h rest ih =>
    intro sz
    show (mkHiddenLayers sz (h :: rest)).length = _
    rw [mkHiddenLayers]
    simp [ih h]

theorem loadHidden_matched :
    ∀ (hs : List Linear) (sz i : Nat) (sd : List (String × Tensor)),
      hiddenOk sz hs = true →
      (∀ j l, hs[j]? = some l →
        lookupT sd (hwKey (i + j)) = some l.weight ∧
        lookupT sd (hbKey (i + j)) = some l.bias) →
      loadHidden sd i (mkHiddenLayers sz (hs.map Linear.out_features)) =
        (hs, [], []) := by
  intro hs
  induction hs with
  | nil => intro sz i sd _ _; rfl
  | cons l rest ih =>
    intro sz i sd hok hlook
    obtain ⟨lin, lout, lw, lb⟩ := l
    simp only [hiddenOk, Linear.wf, Bool.and_eq_true, decide_eq_true_eq] at hok
    obtain ⟨⟨⟨hin, hpos⟩, ⟨⟨⟨hws, hwl⟩, hbs⟩, hbl⟩⟩, hrest⟩ := hok
    subst hin
    have hl0 := hlook 0 ⟨lin, lout, lw, lb⟩ (by simp)
    rw [Nat.add_zero] at hl0
    obtain ⟨hlw, hlb⟩ := hl0
    show loadHidden sd i
        (mkHiddenLayers lin (lout :: rest.map Linear.out_features)) = _
    rw [mkHiddenLayers, loadHidden]
    have hstep :
        (Linear.init lin lout).loadFrom sd (hwKey i) (hbKey i) =
          (⟨lin, lout, lw, lb⟩, [], []) := by
      simp only [Linear.loadFrom, Linear.init, copyParam, hlw, hlb]
      rw [if_pos hws, if_pos hbs]
      rfl
    rw [hstep]
    have hnext :
        loadHidden sd (i + 1) (mkHiddenLayers lout (rest.map Linear.out_features)) =
          (rest, [], []) := by
      apply ih lout (i + 1) sd hrest
      intro j l' hj
      have := hlook (j + 1) l' (by simpa using hj)
      rwa [show i + (j + 1) = (i + 1) + j from by omega] at this
    rw [hnext]
    rfl

theorem loadFrom_output (m : Network) (howf : m.output.wf = true) :
    (Linear.init m.output.in_features m.output.out_features).loadFrom
        m.state_dict "output.weight" "output.bias" = (m.output, [], []) := by
  simp only [Linear.wf, Bool.and_eq_true, decide_eq_true_eq] at howf
  obtain ⟨⟨⟨hws, hwl⟩, hbs⟩, hbl⟩ := howf
  simp only [Linear.loadFrom, Linear.init, copyParam,
    lookup_sd_outW m, lookup_sd_outB m]
  rw [if_pos hws, if_pos hbs]
  rfl

theorem keys_eq_of_length :
    ∀ (hs1 hs2 : List Linear) (i : Nat), hs1.length = hs2.length →
      (stateEntriesAux i hs1).map Prod.fst =
        (stateEntriesAux i hs2).map Prod.fst := by
  intro hs1
  induction hs1 with
  | nil =>
    intro hs2 i h
    cases hs2 with
    | nil => rfl
    | cons y ys => simp at h
  | cons x xs ih =>
    intro hs2 i h
    cases hs2 with
    | nil => simp at h
    | cons y ys =>
      simp only [List.length_cons, Nat.add_right_cancel_iff] at h
      rw [stateEntriesAux, stateEntriesAux]
      simp only [List.map_cons]
      rw [ih ys (i + 1) h]

theorem filter_not_memStr_self (l : List String) :
    l.filter (fun k => !(memStr k l)) = [] := by
  rw [List.filter_eq_nil_iff]
  intro a ha
  rw [memStr_of_mem ha]
  simp

theorem state_dict_keys_eq {m1 m2 : Network}
    (h : m1.hidden_layers.length = m2.hidden_layers.length) :
    m1.state_dict.map Prod.fst = m2.state_dict.map Prod.fst := by
  rw [Network.state_dict, Network.state_dict, List.map_append, List.map_append,
    keys_eq_of_length m1.hidden_layers m2.hidden_layers 0 h]
  simp

theorem load_state_dict_ok {m : Network} {sd : List (String × Tensor)}
    {hs' : List Linear} {out' : Linear}
    (hhid : loadHidden sd 0 m.hidden_layers = (hs', [], []))
    (hop : m.output.loadFrom sd "output.weight" "output.bias" = (out', [], []))
    (hunexp : (sd.map Prod.fst).filter
        (fun k => !(memStr k (m.state_dict.map Prod.fst))) = []) :
    m.load_state_dict sd true = .ok { m with hidden_layers := hs', output := out' } := by
  simp only [Network.load_state_dict, hhid, hop, hunexp]
  simp

/-- Core round trip: saving a valid model whose input and output sizes
agree with the hard-coded checkpoint metadata, and loading the result,
reproduces the model exactly. -/
theorem load_save_ok (m : Network) (hwf : m.wf = true)
    (hin : m.input_size = 784) (hout : m.output_size = 10) :
    load_checkpoint (saveCheckpoint m) = .ok m := by
  obtain ⟨min, mout, hs, outL⟩ := m
  replace hin : min = 784 := hin
  replace hout : mout = 10 := hout
  subst hin
  subst hout
  simp only [Network.wf, Bool.and_eq_true, decide_eq_true_eq] at hwf
  obtain ⟨⟨⟨⟨⟨⟨hposin, hposout⟩, hne⟩, hok⟩, hoin⟩, hoout⟩, howf⟩ := hwf
  cases hs with
  | nil => simp at hne
  | cons l0 rest =>
    show load_checkpoint
        ⟨784, 10, Linear.out_features l0 :: rest.map Linear.out_features,
          Network.state_dict ⟨784, 10, l0 :: rest, outL⟩⟩ =
      .ok ⟨784, 10, l0 :: rest, outL⟩
    rw [load_checkpoint]
    show (Network.build 784 10 l0.out_features (rest.map Linear.out_features)).load_state_dict
        (Network.state_dict ⟨784, 10, l0 :: rest, outL⟩) true = _
    have hhid : loadHidden (Network.state_dict ⟨784, 10, l0 :: rest, outL⟩) 0
        (Network.build 784 10 l0.out_features (rest.map Linear.out_features)).hidden_layers =
        (l0 :: rest, [], []) := by
      show loadHidden _ 0
          (mkHiddenLayers 784 ((l0 :: rest).map Linear.out_features)) = _
      apply loadHidden_matched (l0 :: rest) 784 0 _ hok
      intro j l hj
      rw [Nat.zero_add]
      exact ⟨lookup_sd_hw (m := ⟨784, 10, l0 :: rest, outL⟩) hj,
        lookup_sd_hb (m := ⟨784, 10, l0 :: rest, outL⟩) hj⟩
    have hlast : lastSize l0.out_features (rest.map Linear.out_features) =
        outL.in_features := by
      rw [chainOut_eq_lastSize rest l0.out_features]
      exact hoin.symm
    have hop : (Network.build 784 10 l0.out_features
          (rest.map Linear.out_features)).output.loadFrom
        (Network.state_dict ⟨784, 10, l0 :: rest, outL⟩)
        "output.weight" "output.bias" = (outL, [], []) := by
      show (Linear.init (lastSize l0.out_features (rest.map Linear.out_features))
          10).loadFrom _ _ _ = _
      rw [hlast, show (10 : Nat) = outL.out_features from hoout.symm]
      exact loadFrom_output ⟨784, 10, l0 :: rest, outL⟩ howf
    have hlen : (Network.build 784 10 l0.out_features
          (rest.map Linear.out_features)).hidden_layers.length =
        (Network.mk 784 10 (l0 :: rest) outL).hidden_layers.length := by
      show (mkHiddenLayers 784 (l0.out_features :: rest.map Linear.out_features)).length = _
      rw [mkHiddenLayers_length]
      simp
    have hunexp : ((Network.state_dict ⟨784, 10, l0 :: rest, outL⟩).map Prod.fst).filter
        (fun k => !(memStr k ((Network.build 784 10 l0.out_features
          (rest.map Linear.out_features)).state_dict.map Prod.fst))) = [] := by
      rw [state_dict_keys_eq hlen.symm ]
      exact filter_not_memStr_self _
    rw [load_state_dict_ok hhid hop hunexp]
    rfl

/-!
Removing a key from a record, and the ordered list of required keys.
-/

theorem lookup_removeKey (sd : List (String × Tensor)) (k0 k : String) :
    lookupT (removeKey sd k0) k = if k = k0 then none else lookupT sd k := by
  induction sd with
  | nil =>
    rw [removeKey]
    show (none : Option Tensor) = if k = k0 then none else none
    split <;> rfl
  | cons p sd ih =>
    obtain ⟨k1, t⟩ := p
    rw [removeKey, List.filter_cons]
    by_cases h1 : k1 = k0
    · rw [if_neg (by simp [h1])]
      rw [removeKey] at ih
      rw [ih]
      by_cases hk : k = k0
      · rw [if_pos hk, if_pos hk]
      · rw [if_neg hk, if_neg hk, lookupT, if_neg (by rw [h1]; exact fun e => hk e.symm)]
    · rw [if_pos (by simp [h1])]
      rw [lookupT]
      by_cases h2 : k1 = k
      · rw [if_pos h2, if_neg (by rw [← h2]; exact h1), lookupT, if_pos h2]
      · rw [if_neg h2]
        rw [removeKey] at ih
        rw [ih]
        by_cases hk : k = k0
        · rw [if_pos hk, if_pos hk]
        · rw [if_neg hk, if_neg hk, lookupT, if_neg h2]

theorem stateEntries_fst :
    ∀ (hs : List Linear) (i : Nat),
      (stateEntriesAux i hs).map Prod.fst = keyList i hs.length := by
  intro hs
  induction hs with
  | nil => intro i; rfl
  | cons l rest ih =>
    intro i
    rw [stateEntriesAux]
    simp only [List.map_cons, List.length_cons]
    rw [keyList, ih (i + 1)]

theorem sd_keys (m : Network) :
    m.state_dict.map Prod.fst =
      keyList 0 m.hidden_layers.length ++ ["output.weight", "output.bias"] := by
  rw [Network.state_dict, List.map_append, stateEntries_fst]
  rfl

theorem mem_keyList :
    ∀ (n i : Nat) (k : String), k ∈ keyList i n →
      ∃ j, j < n ∧ (k = hwKey (i + j) ∨ k = hbKey (i + j)) := by
  intro n
  induction n with
  | zero => intro i k h; cases h
  | succ n ih =>
    intro i k h
    rw [keyList, List.mem_cons] at h
    rcases h with he | h
    · exact ⟨0, by omega, Or.inl (by rw [Nat.add_zero]; exact he)⟩
    rw [List.mem_cons] at h
    rcases h with he | h
    · exact ⟨0, by omega, Or.inr (by rw [Nat.add_zero]; exact he)⟩
    · obtain ⟨j, hj, hk⟩ := ih (i + 1) k h
      exact ⟨j + 1, by omega, by rwa [show i + (j + 1) = (i + 1) + j from by omega]⟩

theorem hwKey_not_mem_keyList (i : Nat) : ∀ n j, i < j → hwKey i ∉ keyList j n := by
  intro n j hij h
  obtain ⟨j', _, hk | hk⟩ := mem_keyList n j _ h
  · have := hwKey_inj hk
    omega
  · exact hwKey_ne_hbKey i (j + j') hk

theorem hbKey_not_mem_keyList (i : Nat) : ∀ n j, i < j → hbKey i ∉ keyList j n := by
  intro n j hij h
  obtain ⟨j', _, hk | hk⟩ := mem_keyList n j _ h
  · exact hwKey_ne_hbKey (j + j') i hk.symm
  · have := hbKey_inj hk
    omega

theorem keyList_nodup : ∀ (n i : Nat), (keyList i n).Nodup := by
  intro n
  induction n with
  | zero => intro i; exact List.nodup_nil
  | succ n ih =>
    intro i
    rw [keyList]
    refine List.nodup_cons.2 ⟨?_, List.nodup_cons.2 ⟨?_, ih (i + 1)⟩⟩
    · intro h
      rw [List.mem_cons] at h
      rcases h with he | h
      · exact hwKey_ne_hbKey i i he
      · exact hwKey_not_mem_keyList i n (i + 1) (by omega) h
    · exact hbKey_not_mem_keyList i n (i + 1) (by omega)

theorem modelKeys_nodup (n : Nat) :
    (keyList 0 n ++ ["output.weight", "output.bias"]).Nodup := by
  rw [List.nodup_append]
  refine ⟨keyList_nodup n 0, by simp [outW_ne_outB], ?_⟩
  intro k hk hk2
  obtain ⟨j, _, h | h⟩ := mem_keyList n 0 k hk <;>
    subst h <;>
    simp only [List.mem_cons, List.not_mem_nil, or_false] at hk2
  · rcases hk2 with h2 | h2
    · exact hwKey_ne_outW (0 + j) h2
    · exact hwKey_ne_outB (0 + j) h2
  · rcases hk2 with h2 | h2
    · exact hbKey_ne_outW (0 + j) h2
    · exact hbKey_ne_outB (0 + j) h2

theorem filter_eq_single_of_nodup :
    ∀ (l : List String) (a : String), l.Nodup → a ∈ l →
      l.filter (fun k => decide (k = a)) = [a] := by
  intro l
  induction l with
  | nil => intro a _ ha; cases ha
  | cons x xs ih =>
    intro a hn ha
    rw [List.nodup_cons] at hn
    rw [List.filter_cons]
    rcases List.mem_cons.1 ha with he | hm
    · subst he
      rw [if_pos (by simp)]
      have : xs.filter (fun k => decide (k = a)) = [] := by
        rw [List.filter_eq_nil_iff]
        intro b hb
        simp only [decide_eq_true_eq]
        intro hbx
        exact hn.1 (hbx ▸ hb)
      rw [this]
    · have hxa : x ≠ a := fun e => hn.1 (e ▸ hm)
      rw [if_neg (by simpa using hxa)]
      exact ih a hn.2 hm

theorem copyParam_present {sd : List (String × Tensor)} {key : String}
    {t cur : Tensor} (hl : lookupT sd key = some t)
    (hs : t.shape = cur.shape) : copyParam sd key cur = (t, [], []) := by
  simp only [copyParam, hl]
  rw [if_pos hs]

theorem copyParam_absent {sd : List (String × Tensor)} {key : String}
    {cur : Tensor} (hl : lookupT sd key = none) :
    copyParam sd key cur = (cur, [], [key]) := by
  simp only [copyParam, hl]

theorem loadHidden_missing :
    ∀ (hs : List Linear) (sz i : Nat) (sd : List (String × Tensor)) (k0 : String),
      hiddenOk sz hs = true →
      (∀ j l, hs[j]? = some l →
        lookupT sd (hwKey (i + j)) =
          (if hwKey (i + j) = k0 then none else some l.weight) ∧
        lookupT sd (hbKey (i + j)) =
          (if hbKey (i + j) = k0 then none else some l.bias)) →
      ∃ hs', loadHidden sd i (mkHiddenLayers sz (hs.map Linear.out_features)) =
        (hs', [], (keyList i hs.length).filter (fun k => decide (k = k0))) := by
  intro hs
  induction hs with
  | nil => intro sz i sd k0 _ _; exact ⟨[], rfl⟩
  | cons l rest ih =>
    intro sz i sd k0 hok hlook
    obtain ⟨lin, lout, lw, lb⟩ := l
    simp only [hiddenOk, Linear.wf, Bool.and_eq_true, decide_eq_true_eq] at hok
    obtain ⟨⟨⟨hin, hpos⟩, ⟨⟨⟨hws, hwl⟩, hbs⟩, hbl⟩⟩, hrest⟩ := hok
    subst hin
    have hl0 := hlook 0 ⟨lin, lout, lw, lb⟩ (by simp)
    rw [Nat.add_zero] at hl0
    obtain ⟨hlw, hlb⟩ := hl0
    have hlook2 : ∀ j l', rest[j]? = some l' →
        lookupT sd (hwKey ((i + 1) + j)) =
          (if hwKey ((i + 1) + j) = k0 then none else some l'.weight) ∧
        lookupT sd (hbKey ((i + 1) + j)) =
          (if hbKey ((i + 1) + j) = k0 then none else some l'.bias) := by
      intro j l' hj
      have := hlook (j + 1) l' (by simpa using hj)
      rwa [show i + (j + 1) = (i + 1) + j from by omega] at this
    obtain ⟨hs', ihh⟩ := ih lout (i + 1) sd k0 hrest hlook2
    have hpw : copyParam sd (hwKey i) (Linear.init lin lout).weight =
        (if hwKey i = k0 then (Linear.init lin lout).weight else lw, [],
          if hwKey i = k0 then [hwKey i] else []) := by
      by_cases hw0 : hwKey i = k0
      · rw [if_pos hw0, if_pos hw0]
        exact copyParam_absent (by rw [hlw, if_pos hw0])
      · rw [if_neg hw0, if_neg hw0]
        exact copyParam_present (by rw [hlw, if_neg hw0]) hws
    have hpb : copyParam sd (hbKey i) (Linear.init lin lout).bias =
        (if hbKey i = k0 then (Linear.init lin lout).bias else lb, [],
          if hbKey i = k0 then [hbKey i] else []) := by
      by_cases hb0 : hbKey i = k0
      · rw [if_pos hb0, if_pos hb0]
        exact copyParam_absent (by rw [hlb, if_pos hb0])
      · rw [if_neg hb0, if_neg hb0]
        exact copyParam_present (by rw [hlb, if_neg hb0]) hbs
    refine ⟨{ Linear.init lin lout with
        weight := if hwKey i = k0 then (Linear.init lin lout).weight else lw,
        bias := if hbKey i = k0 then (Linear.init lin lout).bias else lb } :: hs', ?_⟩
    show loadHidden sd i
        (mkHiddenLayers lin (lout :: rest.map Linear.out_features)) = _
    rw [mkHiddenLayers, loadHidden]
    show (((Linear.init lin lout).loadFrom sd (hwKey i) (hbKey i)).1 ::
        (loadHidden sd (i + 1) (mkHiddenLayers lout (rest.map Linear.out_features))).1, _, _) = _
    rw [ihh]
    simp only [Linear.loadFrom, hpw, hpb]
    rw [List.length_cons, keyList, List.filter_cons, List.filter_cons]
    by_cases hw0 : hwKey i = k0 <;> by_cases hb0 : hbKey i = k0 <;>
      simp [hw0, hb0]

theorem loadFrom_output_rm (m : Network) (howf : m.output.wf = true)
    (k0 : String) :
    ∃ out', (Linear.init m.output.in_features m.output.out_features).loadFrom
        (removeKey m.state_dict k0) "output.weight" "output.bias" =
      (out', [],
        ["output.weight", "output.bias"].filter (fun k => decide (k = k0))) := by
  simp only [Linear.wf, Bool.and_eq_true, decide_eq_true_eq] at howf
  obtain ⟨⟨⟨hws, hwl⟩, hbs⟩, hbl⟩ := howf
  have hpw : copyParam (removeKey m.state_dict k0) "output.weight"
      (Linear.init m.output.in_features m.output.out_features).weight =
      (if "output.weight" = k0
        then (Linear.init m.output.in_features m.output.out_features).weight
        else m.output.weight, [],
        if "output.weight" = k0 then ["output.weight"] else []) := by
    by_cases h1 : "output.weight" = k0
    · rw [if_pos h1, if_pos h1]
      exact copyParam_absent (by rw [lookup_removeKey, if_pos h1])
    · rw [if_neg h1, if_neg h1]
      exact copyParam_present
        (by rw [lookup_removeKey, if_neg h1]; exact lookup_sd_outW m) hws
  have hpb : copyParam (removeKey m.state_dict k0) "output.bias"
      (Linear.init m.output.in_features m.output.out_features).bias =
      (if "output.bias" = k0
        then (Linear.init m.output.in_features m.output.out_features).bias
        else m.output.bias, [],
        if "output.bias" = k0 then ["output.bias"] else []) := by
    by_cases h2 : "output.bias" = k0
    · rw [if_pos h2, if_pos h2]
      exact copyParam_absent (by rw [lookup_removeKey, if_pos h2])
    · rw [if_neg h2, if_neg h2]
      exact copyParam_present
        (by rw [lookup_removeKey, if_neg h2]; exact lookup_sd_outB m) hbs
  refine ⟨{ Linear.init m.output.in_features m.output.out_features with
      weight := if "output.weight" = k0
        then (Linear.init m.output.in_features m.output.out_features).weight
        else m.output.weight,
      bias := if "output.bias" = k0
        then (Linear.init m.output.in_features m.output.out_features).bias
        else m.output.bias }, ?_⟩
  simp only [Linear.loadFrom, hpw, hpb]
  rw [List.filter_cons, List.filter_cons]
  by_cases h1 : "output.weight" = k0 <;> by_cases h2 : "output.bias" = k0 <;>
    simp [h1, h2]

theorem removeKey_keys_subset {sd : List (String × Tensor)} {k0 k : String}
    (h : k ∈ (removeKey sd k0).map Prod.fst) : k ∈ sd.map Prod.fst := by
  rw [removeKey] at h
  obtain ⟨p, hp, he⟩ := List.mem_map.1 h
  exact List.mem_map.2 ⟨p, (List.mem_filter.1 hp).1, he⟩

theorem filter_not_memStr_of_subset {l1 l2 : List String}
    (hsub : ∀ k, k ∈ l1 → k ∈ l2) :
    l1.filter (fun k => !(memStr k l2)) = [] := by
  rw [List.filter_eq_nil_iff]
  intro a ha
  rw [memStr_of_mem (hsub a ha)]
  simp

theorem load_state_dict_err {m : Network} {sd : List (String × Tensor)}
    {hs' : List Linear} {out' : Linear} {missH missO : List String}
    (hhid : loadHidden sd 0 m.hidden_layers = (hs', [], missH))
    (hop : m.output.loadFrom sd "output.weight" "output.bias" = (out', [], missO))
    (hunexp : (sd.map Prod.fst).filter
        (fun k => !(memStr k (m.state_dict.map Prod.fst))) = [])
    (hne : missH ++ missO ≠ []) :
    m.load_state_dict sd true =
      .error (.loadStateDictError [] (missH ++ missO) []) := by
  have hfe : (missH ++ missO).isEmpty = false := by
    cases h : missH ++ missO with
    | nil => exact absurd h hne
    | cons a l => rfl
  simp only [Network.load_state_dict, hhid, hop, hunexp]
  simp [hfe]

/-- Removing any required key from an otherwise matching checkpoint
makes the load fail with exactly that key reported missing. -/
theorem load_removed_key (m : Network) (hwf : m.wf = true)
    (hin : m.input_size = 784) (hout : m.output_size = 10) (key : String)
    (hkey : key ∈ m.state_dict.map Prod.fst) :
    load_checkpoint
        { saveCheckpoint m with state_dict := removeKey m.state_dict key } =
      .error (.loadStateDictError [] [key] []) := by
  obtain ⟨min, mout, hs, outL⟩ := m
  replace hin : min = 784 := hin
  replace hout : mout = 10 := hout
  subst hin
  subst hout
  simp only [Network.wf, Bool.and_eq_true, decide_eq_true_eq] at hwf
  obtain ⟨⟨⟨⟨⟨⟨hposin, hposout⟩, hne⟩, hok⟩, hoin⟩, hoout⟩, howf⟩ := hwf
  cases hs with
  | nil => simp at hne
  | cons l0 rest =>
    show load_checkpoint
        ⟨784, 10, Linear.out_features l0 :: rest.map Linear.out_features,
          removeKey (Network.state_dict ⟨784, 10, l0 :: rest, outL⟩) key⟩ = _
    rw [load_checkpoint]
    show (Network.build 784 10 l0.out_features
        (rest.map Linear.out_features)).load_state_dict
        (removeKey (Network.state_dict ⟨784, 10, l0 :: rest, outL⟩) key) true = _
    obtain ⟨hs', hhid0⟩ := loadHidden_missing (l0 :: rest) 784 0
      (removeKey (Network.state_dict ⟨784, 10, l0 :: rest, outL⟩) key) key hok
      (by
        intro j l hj
        rw [Nat.zero_add]
        constructor
        · rw [lookup_removeKey, lookup_sd_hw (m := ⟨784, 10, l0 :: rest, outL⟩) hj]
        · rw [lookup_removeKey, lookup_sd_hb (m := ⟨784, 10, l0 :: rest, outL⟩) hj])
    have hhid : loadHidden
        (removeKey (Network.state_dict ⟨784, 10, l0 :: rest, outL⟩) key) 0
        (Network.build 784 10 l0.out_features
          (rest.map Linear.out_features)).hidden_layers =
        (hs', [], (keyList 0 (l0 :: rest).length).filter (fun k => decide (k = key))) := by
      show loadHidden _ 0 (mkHiddenLayers 784 ((l0 :: rest).map Linear.out_features)) = _
      exact hhid0
    have hlast : lastSize l0.out_features (rest.map Linear.out_features) =
        outL.in_features := by
      rw [chainOut_eq_lastSize rest l0.out_features]
      exact hoin.symm
    obtain ⟨out', hop0⟩ :=
      loadFrom_output_rm ⟨784, 10, l0 :: rest, outL⟩ howf key
    have hop : (Network.build 784 10 l0.out_features
        (rest.map Linear.out_features)).output.loadFrom
        (removeKey (Network.state_dict ⟨784, 10, l0 :: rest, outL⟩) key)
        "output.weight" "output.bias" =
        (out', [], ["output.weight", "output.bias"].filter (fun k => decide (k = key))) := by
      show (Linear.init (lastSize l0.out_features (rest.map Linear.out_features))
          10).loadFrom _ _ _ = _
      rw [hlast, show (10 : Nat) = outL.out_features from hoout.symm]
      exact hop0
    have hlen : (Network.build 784 10 l0.out_features
          (rest.map Linear.out_features)).hidden_layers.length =
        (Network.mk 784 10 (l0 :: rest) outL).hidden_layers.length := by
      show (mkHiddenLayers 784 (l0.out_features :: rest.map Linear.out_features)).length = _
      rw [mkHiddenLayers_length]
      simp
    have hkeyseq : (Network.mk 784 10 (l0 :: rest) outL).state_dict.map Prod.fst =
        (Network.build 784 10 l0.out_features
          (rest.map Linear.out_features)).state_dict.map Prod.fst :=
      state_dict_keys_eq hlen.symm
    have hunexp : (((removeKey (Network.state_dict ⟨784, 10, l0 :: rest, outL⟩)
        key).map Prod.fst).filter
        (fun k => !(memStr k ((Network.build 784 10 l0.out_features
          (rest.map Linear.out_features)).state_dict.map Prod.fst)))) = [] := by
      apply filter_not_memStr_of_subset
      intro k hk
      rw [← hkeyseq]
      exact removeKey_keys_subset hk
    have hmiss : ((keyList 0 (l0 :: rest).length).filter
          (fun k => decide (k = key))) ++
        (["output.weight", "output.bias"].filter (fun k => decide (k = key))) =
        [key] := by
      rw [← List.filter_append]
      rw [sd_keys] at hkey
      exact filter_eq_single_of_nodup _ key
        (modelKeys_nodup (l0 :: rest).length) hkey
    rw [load_state_dict_err hhid hop hunexp (by rw [hmiss]; simp), hmiss]

/-!
Soundness of a successful load: every parameter of a returned model was
copied from the record, and the layer features are preserved.
-/

theorem loadFrom_sound {l l' : Linear} {sd : List (String × Tensor)}
    {kw kb : String} (h : l.loadFrom sd kw kb = (l', [], [])) :
    lookupT sd kw = some l'.weight ∧ lookupT sd kb = some l'.bias ∧
    l'.in_features = l.in_features ∧ l'.out_features = l.out_features := by
  simp only [Linear.loadFrom] at h
  cases hw : lookupT sd kw with
  | none =>
    rw [copyParam_absent hw] at h
    simp [Prod.mk.injEq] at h
  | some t =>
    cases hb : lookupT sd kb with
    | none =>
      rw [copyParam_absent hb] at h
      simp [Prod.mk.injEq] at h
    | some u =>
      by_cases hsw : t.shape = l.weight.shape
      · by_cases hsb : u.shape = l.bias.shape
        · rw [copyParam_present hw hsw, copyParam_present hb hsb] at h
          simp only [Prod.mk.injEq] at h
          obtain ⟨h1, -⟩ := h
          subst h1
          exact ⟨rfl, rfl, rfl, rfl⟩
        · rw [copyParam_present hw hsw] at h
          simp only [copyParam, hb, if_neg hsb, Prod.mk.injEq] at h
          simp at h
      · simp only [copyParam, hw, if_neg hsw, Prod.mk.injEq] at h
        simp at h

theorem loadHidden_sound :
    ∀ (ls : List Linear) (i : Nat) (sd : List (String × Tensor))
      (ls' : List Linear),
      loadHidden sd i ls = (ls', [], []) →
      ∀ (rest : List (String × Tensor)) (k : String) (t : Tensor),
        lookupT (stateEntriesAux i ls' ++ rest) k = some t →
        lookupT sd k = some t ∨ lookupT rest k = some t := by
  intro ls
  induction ls with
  | nil =>
    intro i sd ls' h rest k t hl
    have : ls' = [] := by
      rw [loadHidden] at h
      exact (Prod.mk.injEq .. ▸ h).1.symm
    subst this
    exact Or.inr hl
  | cons l tl ih =>
    intro i sd ls' h rest k t hl
    rcases hp : l.loadFrom sd (hwKey i) (hbKey i) with ⟨l1, e1, m1⟩
    rcases hq : loadHidden sd (i + 1) tl with ⟨ls1, e2, m2⟩
    rw [loadHidden, hp, hq] at h
    simp only [Prod.mk.injEq] at h
    obtain ⟨hls, he, hm⟩ := h
    rw [List.append_eq_nil] at he hm
    obtain ⟨he1, he2⟩ := he
    obtain ⟨hm1, hm2⟩ := hm
    subst he1
    subst he2
    subst hm1
    subst hm2
    subst hls
    have hfrom := loadFrom_sound hp
    rw [stateEntriesAux, List.cons_append, List.cons_append, lookupT] at hl
    by_cases h1 : hwKey i = k
    · rw [if_pos h1] at hl
      rw [Option.some.injEq] at hl
      subst hl
      rw [← h1]
      exact Or.inl hfrom.1
    · rw [if_neg h1, lookupT] at hl
      by_cases h2 : hbKey i = k
      · rw [if_pos h2] at hl
        rw [Option.some.injEq] at hl
        subst hl
        rw [← h2]
        exact Or.inl hfrom.2.1
      · rw [if_neg h2] at hl
        exact ih (i + 1) sd ls1 hq rest k t hl

theorem loadHidden_features :
    ∀ (ls : List Linear) (i : Nat) (sd : List (String × Tensor)),
      (loadHidden sd i ls).1.map Linear.out_features =
        ls.map Linear.out_features := by
  intro ls
  induction ls with
  | nil => intro i sd; rfl
  | cons l tl ih =>
    intro i sd
    rw [loadHidden]
    simp only [List.map_cons]
    rw [ih (i + 1) sd]
    rfl

theorem mkHiddenLayers_map_out :
    ∀ (sizes : List Nat) (sz : Nat),
      (mkHiddenLayers sz sizes).map Linear.out_features = sizes := by
  intro sizes
  induction sizes with
  | nil => intro sz; rfl
  | cons h rest ih =>
    intro sz
    rw [mkHiddenLayers, List.map_cons, ih h]
    rfl

theorem load_state_dict_true_eq (m : Network) (sd : List (String × Tensor))
    {hs' : List Linear} {out' : Linear} {e1 e2 : List Mismatch}
    {m1 m2 : List String}
    (hp : loadHidden sd 0 m.hidden_layers = (hs', e1, m1))
    (ho : m.output.loadFrom sd "output.weight" "output.bias" = (out', e2, m2)) :
    m.load_state_dict sd true =
      if (e1 ++ e2).isEmpty && (m1 ++ m2).isEmpty &&
          ((sd.map Prod.fst).filter
            (fun k => !(memStr k (m.state_dict.map Prod.fst)))).isEmpty
      then .ok { m with hidden_layers := hs', output := out' }
      else .error (.loadStateDictError
        ((sd.map Prod.fst).filter
          (fun k => !(memStr k (m.state_dict.map Prod.fst))))
        (m1 ++ m2) (e1 ++ e2)) := by
  simp only [Network.load_state_dict, hp, ho]
  rfl

/-- Soundness of a successful `load_checkpoint` call: the returned model
realises exactly the checkpoint's architecture descriptor, and each of
its parameters is the checkpoint record's tensor for the same key. -/
theorem load_checkpoint_consistent (c : Checkpoint) (m' : Network)
    (h : load_checkpoint c = .ok m') :
    m'.input_size = c.input_size ∧ m'.output_size = c.output_size ∧
    m'.hidden_layers.map Linear.out_features = c.hidden_layers ∧
    ∀ k t, lookupT m'.state_dict k = some t →
      lookupT c.state_dict k = some t := by
  obtain ⟨cin, cout, chid, csd⟩ := c
  cases chid with
  | nil => simp [load_checkpoint, Network.create] at h
  | cons h0 hr =>
    rw [load_checkpoint] at h
    show m'.input_size = cin ∧ m'.output_size = cout ∧
      m'.hidden_layers.map Linear.out_features = h0 :: hr ∧ _
    rcases hp : loadHidden csd 0 (Network.build cin cout h0 hr).hidden_layers
      with ⟨hs', e1, m1⟩
    rcases ho : (Network.build cin cout h0 hr).output.loadFrom csd
        "output.weight" "output.bias" with ⟨out', e2, m2⟩
    have hh : (Network.build cin cout h0 hr).load_state_dict csd true = .ok m' := h
    rw [load_state_dict_true_eq _ _ hp ho] at hh
    split at hh
    case isFalse => cases hh
    case isTrue hc =>
      simp only [Bool.and_eq_true, List.isEmpty_eq_true] at hc
      obtain ⟨⟨hmm0, hms0⟩, -⟩ := hc
      rw [List.append_eq_nil] at hmm0 hms0
      obtain ⟨he1, he2⟩ := hmm0
      obtain ⟨hm1, hm2⟩ := hms0
      subst he1
      subst he2
      subst hm1
      subst hm2
      have hm' : m' = { Network.build cin cout h0 hr with
          hidden_layers := hs', output := out' } := by
        cases hh
        rfl
      subst hm'
      refine ⟨rfl, rfl, ?_, ?_⟩
      · show hs'.map Linear.out_features = h0 :: hr
        have hfeat := loadHidden_features
          (Network.build cin cout h0 hr).hidden_layers 0 csd
        rw [hp] at hfeat
        rw [show ((hs', ([] : List Mismatch), ([] : List String)).1) = hs'
          from rfl] at hfeat
        rw [hfeat]
        exact mkHiddenLayers_map_out (h0 :: hr) cin
      · intro k t hl
        have hsound := loadHidden_sound
          (Network.build cin cout h0 hr).hidden_layers 0 csd hs' hp
          [("output.weight", out'.weight), ("output.bias", out'.bias)] k t hl
        rcases hsound with hfound | hrest
        · exact hfound
        · have hout := loadFrom_sound ho
          rw [lookupT] at hrest
          by_cases h1 : "output.weight" = k
          · rw [if_pos h1] at hrest
            rw [Option.some.injEq] at hrest
            subst hrest
            rw [← h1]
            exact hout.1
          · rw [if_neg h1, lookupT] at hrest
            by_cases h2 : "output.bias" = k
            · rw [if_pos h2] at hrest
              rw [Option.some.injEq] at hrest
              subst hrest
              rw [← h2]
              exact hout.2.1
            · rw [if_neg h2] at hrest
              cases hrest

theorem dictGet_absent :
    ∀ (entries : List (String × PyValue)) (key : String),
      key ∉ entries.map Prod.fst →
      dictGet entries key = .error (.keyError key) := by
  intro entries
  induction entries with
  | nil => intro key _; rfl
  | cons p rest ih =>
    intro key hk
    obtain ⟨k, v⟩ := p
    simp only [List.map_cons, List.mem_cons] at hk
    rw [dictGet, if_neg (fun e => hk (Or.inl e.symm))]
    exact ih key (fun e => hk (Or.inr e))

theorem entriesToRecord_map (sd : List (String × Tensor)) :
    entriesToRecord (sd.map (fun p => (p.1, PyValue.tensor p.2))) = .ok sd := by
  induction sd with
  | nil => rfl
  | cons p rest ih =>
    rw [List.map_cons, entriesToRecord, ih]
    rfl

/-- Reading back the composite file is exactly a typed checkpoint load:
the dynamic field extraction succeeds on every file the checkpoint cell
writes. -/
theorem load_checkpoint_file_toFile (c : Checkpoint) :
    load_checkpoint_file c.toFile = load_checkpoint c := by
  obtain ⟨cin, cout, chid, csd⟩ := c
  show Except.bind (entriesToRecord (csd.map (fun p => (p.1, PyValue.tensor p.2))))
      (fun sd => load_checkpoint ⟨cin, cout, chid, sd⟩) =
    load_checkpoint ⟨cin, cout, chid, csd⟩
  rw [entriesToRecord_map]
  rfl

theorem linear_init_wf (a b : Nat) : (Linear.init a b).wf = true := by
  simp [Linear.wf, Linear.init]

theorem hiddenOk_mkHiddenLayers :
    ∀ (sizes : List Nat) (sz : Nat), (∀ h ∈ sizes, 0 < h) →
      hiddenOk sz (mkHiddenLayers sz sizes) = true := by
  intro sizes
  induction sizes with
  | nil => intro sz _; rfl
  | cons h rest ih =>
    intro sz hpos
    rw [mkHiddenLayers, hiddenOk, linear_init_wf]
    simp only [Bool.and_eq_true, decide_eq_true_eq]
    exact ⟨⟨⟨rfl, hpos h (by simp)⟩, trivial⟩,
      ih h (fun x hx => hpos x (by simp [hx]))⟩

theorem chainOut_mkHiddenLayers :
    ∀ (rest : List Nat) (h0 sz : Nat),
      chainOut sz (mkHiddenLayers sz (h0 :: rest)) = lastSize h0 rest := by
  intro rest
  induction rest with
  | nil => intro h0 sz; rfl
  | cons r rs ih =>
    intro h0 sz
    show chainOut h0 (mkHiddenLayers h0 (r :: rs)) = _
    rw [ih r h0]
    rfl

/-- A freshly built model is well formed whenever all its sizes are
positive. -/
theorem build_wf (inF outF h0 : Nat) (rest : List Nat)
    (hin : 0 < inF) (hout : 0 < outF) (h0p : 0 < h0)
    (hrest : ∀ h ∈ rest, 0 < h) :
    (Network.build inF outF h0 rest).wf = true := by
  rw [Network.wf]
  simp only [Bool.and_eq_true, decide_eq_true_eq]
  refine ⟨⟨⟨⟨⟨⟨hin, hout⟩, by simp [Network.build, mkHiddenLayers]⟩, ?_⟩, ?_⟩, ?_⟩, ?_⟩
  · exact hiddenOk_mkHiddenLayers (h0 :: rest) inF
      (by
        intro x hx
        rcases List.mem_cons.1 hx with he | hm
        · exact he ▸ h0p
        · exact hrest x hm)
  · show (Linear.init (lastSize h0 rest) outF).in_features =
      chainOut inF (mkHiddenLayers inF (h0 :: rest))
    rw [chainOut_mkHiddenLayers rest h0 inF]
    rfl
  · rfl
  · exact linear_init_wf (lastSize h0 rest) outF

/-!
The claims.
-/

/-- C1 (amended): the claim held for every valid model is refuted by the
hard-coded checkpoint metadata; as amended, for every model with a valid
architecture descriptor and matching parameter record whose input size
is 784 and output size is 10 — the two values the checkpoint cell writes
as literals — loading the saved checkpoint yields a model whose
architecture fields and every weight and bias tensor equal the
original's (structural equality of the models). -/
theorem C1_roundtrip_amended (m : Network) (hwf : m.wf = true)
    (hin : m.input_size = 784) (hout : m.output_size = 10) :
    load_checkpoint (saveCheckpoint m) = .ok m :=
  load_save_ok m hwf hin hout

/-- C1 counterexample: a valid model with input size 2, output size 1
and hidden sizes [3], whose parameter record matches its descriptor,
does not round-trip: the checkpoint cell hard-codes input_size 784 and
output_size 10, so the load fails with size mismatches instead of
reproducing the model. -/
theorem C1_roundtrip_counterexample :
    netC1x.wf = true ∧
    load_checkpoint (saveCheckpoint netC1x) =
      .error (.loadStateDictError [] []
        [⟨"hidden_layers.0.weight", [3, 2], [3, 784]⟩,
         ⟨"output.weight", [1, 3], [10, 3]⟩,
         ⟨"output.bias", [1], [10]⟩]) ∧
    load_checkpoint (saveCheckpoint netC1x) ≠ .ok netC1x := by decide

/-- C1 witness: a concrete valid 784-to-10 model round-trips through
save and load to itself. -/
theorem C1_roundtrip_witness :
    mdl784.wf = true ∧ mdl784.input_size = 784 ∧ mdl784.output_size = 10 ∧
    load_checkpoint (saveCheckpoint mdl784) = .ok mdl784 :=
  ⟨build_wf 784 10 1 [] (by decide) (by decide) (by decide) (by simp), rfl, rfl,
    C1_roundtrip_amended mdl784
      (build_wf 784 10 1 [] (by decide) (by decide) (by decide) (by simp)) rfl rfl⟩

/-- C2: loading the parameter record built for architecture
(784, 10, [512, 256, 128]) into a model built for
(784, 10, [400, 200, 100]) fails with exactly the size-mismatch error
the notebook shows — seven mismatched parameters listed in parameter
order — and with no missing-key and no unexpected-key component and no
successful result: a specific shape error, neither generic nor silent. -/
theorem C2_shape_validation :
    net400.load_state_dict net512.state_dict true = .error shapeErr512to400 ∧
    shapeErr512to400.hasShapeMismatch = true ∧
    shapeErr512to400.hasMissingKeys = false ∧
    shapeErr512to400.hasUnexpectedKeys = false ∧
    (net400.load_state_dict net512.state_dict true).isOk = false := by decide

/-- C3 counterexample: with the underlying loader's strict option set to
false, removing a required key is not fatal — the load succeeds and the
parameter keeps its prior value — refuting the claim that missing keys
remain fatal when strict is false. -/
theorem C3_strictness_counterexample :
    "hidden_layers.0.bias" ∈ netSmall.state_dict.map Prod.fst ∧
    netSmall.load_state_dict
      (removeKey netSmall.state_dict "hidden_layers.0.bias") false =
      .ok netSmall := by decide

/-- C3 (amended): the notebook's own load never passes a strictness
option (it always loads with the default strict true); the underlying
loader's strict flag behaves as follows: with strict true a missing key
is fatal and an extra key is fatal; with strict false both a missing key
and an extra key are non-fatal, while shape mismatches remain fatal in
both modes. -/
theorem C3_strictness_amended :
    netSmall.load_state_dict
        (removeKey netSmall.state_dict "hidden_layers.0.bias") true =
      .error (.loadStateDictError [] ["hidden_layers.0.bias"] []) ∧
    netSmall.load_state_dict
        (netSmall.state_dict ++ [("extra", ⟨[1], [0]⟩)]) true =
      .error (.loadStateDictError ["extra"] [] []) ∧
    netSmall.load_state_dict
        (removeKey netSmall.state_dict "hidden_layers.0.bias") false =
      .ok netSmall ∧
    netSmall.load_state_dict
        (netSmall.state_dict ++ [("extra", ⟨[1], [0]⟩)]) false =
      .ok netSmall ∧
    netSmall.load_state_dict netOther.state_dict false =
      .error (.loadStateDictError [] []
        [⟨"hidden_layers.0.weight", [5, 3], [4, 3]⟩,
         ⟨"hidden_layers.0.bias", [5], [4]⟩,
         ⟨"output.weight", [2, 5], [2, 4]⟩]) := by decide

/-- C4: for every valid model matching the hard-coded checkpoint
metadata and every required layer key, removing that key from the saved
checkpoint's parameter record makes the load fail with a missing-key
error naming exactly that key — no shape-mismatch and no unexpected-key
component. -/
theorem C4_missing_key (m : Network) (hwf : m.wf = true)
    (hin : m.input_size = 784) (hout : m.output_size = 10) (key : String)
    (hkey : key ∈ m.state_dict.map Prod.fst) :
    load_checkpoint
        { saveCheckpoint m with state_dict := removeKey m.state_dict key } =
      .error (.loadStateDictError [] [key] []) ∧
    (LoadError.loadStateDictError [] [key] []).hasMissingKeys = true ∧
    (LoadError.loadStateDictError [] [key] []).hasShapeMismatch = false :=
  ⟨load_removed_key m hwf hin hout key hkey, rfl, rfl⟩

/-- C4 witness: removing the first hidden layer's weight key from a
concrete saved checkpoint makes the load fail with that key missing. -/
theorem C4_missing_key_witness :
    (mdl784.wf = true ∧
      "hidden_layers.0.weight" ∈ mdl784.state_dict.map Prod.fst) ∧
    load_checkpoint { saveCheckpoint mdl784 with
        state_dict := removeKey mdl784.state_dict "hidden_layers.0.weight" } =
      .error (.loadStateDictError [] ["hidden_layers.0.weight"] []) :=
  ⟨⟨build_wf 784 10 1 [] (by decide) (by decide) (by decide) (by simp), by decide⟩,
    (C4_missing_key mdl784
      (build_wf 784 10 1 [] (by decide) (by decide) (by decide) (by simp)) rfl rfl
      "hidden_layers.0.weight" (by decide)).1⟩

/-- C5: whenever a load returns a model, the model is fully consistent
with the checkpoint — its architecture fields realise the checkpoint's
descriptor and each of its parameter tensors is the checkpoint record's
tensor under the same key; on failure the call returns only the error,
so no partial model is ever observable, and the call takes no existing
model to mutate. -/
theorem C5_load_atomicity (c : Checkpoint) (m' : Network)
    (h : load_checkpoint c = .ok m') :
    m'.input_size = c.input_size ∧ m'.output_size = c.output_size ∧
    m'.hidden_layers.map Linear.out_features = c.hidden_layers ∧
    ∀ k t, lookupT m'.state_dict k = some t →
      lookupT c.state_dict k = some t :=
  load_checkpoint_consistent c m' h

/-- C5 witness: a concrete successful load, with the consistency
conclusions instantiated at it. -/
theorem C5_load_atomicity_witness :
    load_checkpoint (saveCheckpoint mdl784b) = .ok mdl784b ∧
    (mdl784b.input_size = (saveCheckpoint mdl784b).input_size ∧
      mdl784b.output_size = (saveCheckpoint mdl784b).output_size ∧
      mdl784b.hidden_layers.map Linear.out_features =
        (saveCheckpoint mdl784b).hidden_layers ∧
      ∀ k t, lookupT mdl784b.state_dict k = some t →
        lookupT (saveCheckpoint mdl784b).state_dict k = some t) := by
  have h : load_checkpoint (saveCheckpoint mdl784b) = .ok mdl784b :=
    load_save_ok mdl784b
      (build_wf 784 10 2 [] (by decide) (by decide) (by decide) (by simp)) rfl rfl
  exact ⟨h, C5_load_atomicity (saveCheckpoint mdl784b) mdl784b h⟩

/-- C6 counterexample: a valid model with non-matching input and output
sizes holding a NaN parameter entry does not round-trip at all — the
load fails on the hard-coded metadata — so save-then-load does not
reproduce the NaN entries for every model. -/
theorem C6_nan_counterexample :
    netC6x.wf = true ∧ isNaN32 nanBits = true ∧
    lookupT netC6x.state_dict "output.bias" = some ⟨[1], [nanBits]⟩ ∧
    load_checkpoint (saveCheckpoint netC6x) =
      .error (.loadStateDictError [] []
        [⟨"hidden_layers.0.weight", [3, 2], [3, 784]⟩,
         ⟨"output.weight", [1, 3], [10, 3]⟩,
         ⟨"output.bias", [1], [10]⟩]) := by decide

/-- C6 (amended): for every valid model matching the hard-coded
checkpoint metadata, a parameter tensor containing NaN or Inf bit
patterns is neither rejected nor altered by save-then-load: the load
succeeds and reproduces the very same tensor — bit-identical entries —
under the same key. -/
theorem C6_nan_roundtrip (m : Network) (hwf : m.wf = true)
    (hin : m.input_size = 784) (hout : m.output_size = 10)
    (key : String) (t : Tensor) (hk : lookupT m.state_dict key = some t)
    (v : Nat) (_hv : v ∈ t.data)
    (_hnan : isNaN32 v = true ∨ isInf32 v = true) :
    ∃ m', load_checkpoint (saveCheckpoint m) = .ok m' ∧
      lookupT m'.state_dict key = some t :=
  ⟨m, load_save_ok m hwf hin hout, hk⟩

/-- C6 witness: a concrete model whose output bias holds the canonical
quiet-NaN pattern round-trips it bit-identically. -/
theorem C6_nan_roundtrip_witness :
    (netW6.wf = true ∧
      lookupT netW6.state_dict "output.bias" = some nanTensor ∧
      nanBits ∈ nanTensor.data ∧ isNaN32 nanBits = true) ∧
    ∃ m', load_checkpoint (saveCheckpoint netW6) = .ok m' ∧
      lookupT m'.state_dict "output.bias" = some nanTensor :=
  ⟨⟨by decide, by decide, by decide, by decide⟩,
    C6_nan_roundtrip netW6 (by decide) rfl rfl "output.bias" nanTensor
      (by decide) nanBits (by decide) (Or.inl (by decide))⟩

/-- C7: the checkpoint-building cell does not mutate its source model:
after the cell runs, the model's architecture fields and its entire
parameter record are unchanged, and the checkpoint holds a value
snapshot of the parameter record as read. -/
theorem C7_save_no_mutation (m : Network) :
    (saveCell m).2 = m ∧
    (saveCell m).2.input_size = m.input_size ∧
    (saveCell m).2.output_size = m.output_size ∧
    (saveCell m).2.hidden_layers = m.hidden_layers ∧
    (saveCell m).2.state_dict = m.state_dict ∧
    (saveCell m).1.state_dict = m.state_dict :=
  ⟨rfl, rfl, rfl, rfl, rfl, rfl⟩

/-- C8: saving an unchanged model twice yields equal checkpoints — the
manager keeps no state between calls, each checkpoint is a function of
the model alone — and loading each checkpoint reconstructs the same
model, so the two reconstructions are equal (shown here under the
conditions in which the hard-coded metadata lets the load succeed; the
two load outcomes are equal for every model regardless). -/
theorem C8_save_idempotent (m : Network) (hwf : m.wf = true)
    (hin : m.input_size = 784) (hout : m.output_size = 10) :
    (saveTwice m).1 = (saveTwice m).2 ∧
    load_checkpoint (saveTwice m).1 = .ok m ∧
    load_checkpoint (saveTwice m).2 = .ok m ∧
    load_checkpoint (saveTwice m).1 = load_checkpoint (saveTwice m).2 :=
  ⟨rfl, load_save_ok m hwf hin hout, load_save_ok m hwf hin hout, rfl⟩

/-- C8 witness: a concrete model saved twice gives equal checkpoints and
equal reconstructions. -/
theorem C8_save_idempotent_witness :
    mdl784c.wf = true ∧
    ((saveTwice mdl784c).1 = (saveTwice mdl784c).2 ∧
      load_checkpoint (saveTwice mdl784c).1 = .ok mdl784c ∧
      load_checkpoint (saveTwice mdl784c).2 = .ok mdl784c ∧
      load_checkpoint (saveTwice mdl784c).1 =
        load_checkpoint (saveTwice mdl784c).2) :=
  ⟨build_wf 784 10 3 [] (by decide) (by decide) (by decide) (by simp),
    C8_save_idempotent mdl784c
      (build_wf 784 10 3 [] (by decide) (by decide) (by decide) (by simp)) rfl rfl⟩

/-- C9 counterexample: save does derive the hidden-layer descriptor from
the live layers, but it hard-codes the input and output sizes, so a
valid model with other sizes produces a checkpoint that violates the
shape invariant: loading the unmodified checkpoint fails with shape
mismatches. -/
theorem C9_invariant_counterexample :
    netC9x.wf = true ∧
    (saveCheckpoint netC9x).hidden_layers =
      netC9x.hidden_layers.map Linear.out_features ∧
    load_checkpoint (saveCheckpoint netC9x) =
      .error (.loadStateDictError [] []
        [⟨"hidden_layers.0.weight", [3, 5], [3, 784]⟩,
         ⟨"output.weight", [2, 3], [10, 3]⟩,
         ⟨"output.bias", [2], [10]⟩]) ∧
    (LoadError.loadStateDictError [] []
        [⟨"hidden_layers.0.weight", [3, 5], [3, 784]⟩,
         ⟨"output.weight", [2, 3], [10, 3]⟩,
         ⟨"output.bias", [2], [10]⟩]).hasShapeMismatch = true := by decide

/-- C9 (amended): save always derives the hidden-layer descriptor from
the same live layers whose tensors form the state dict; for models whose
input and output sizes equal the hard-coded 784 and 10, every checkpoint
save produces satisfies the shape invariant, and loading it unmodified
succeeds — it can fail with neither a shape mismatch nor a missing
key. -/
theorem C9_saved_checkpoint_loads (m : Network) (hwf : m.wf = true)
    (hin : m.input_size = 784) (hout : m.output_size = 10) :
    (saveCheckpoint m).hidden_layers =
      m.hidden_layers.map Linear.out_features ∧
    ∃ m', load_checkpoint (saveCheckpoint m) = .ok m' :=
  ⟨rfl, m, load_save_ok m hwf hin hout⟩

/-- C9 witness: a concrete matching model's saved checkpoint loads
without failure. -/
theorem C9_saved_checkpoint_loads_witness :
    mdl784d.wf = true ∧
    ((saveCheckpoint mdl784d).hidden_layers =
        mdl784d.hidden_layers.map Linear.out_features ∧
      ∃ m', load_checkpoint (saveCheckpoint mdl784d) = .ok m') :=
  ⟨build_wf 784 10 5 [] (by decide) (by decide) (by decide) (by simp),
    C9_saved_checkpoint_loads mdl784d
      (build_wf 784 10 5 [] (by decide) (by decide) (by decide) (by simp)) rfl rfl⟩

/-- C10: the loader reads the composite fields before any model exists,
so a file written as a bare parameter record — a keyed dict of tensors
with no `input_size` field — makes the load fail with a key-lookup
error on `input_size`, and no model is constructed. -/
theorem C10_bare_record_fails (sd : List (String × Tensor))
    (h : "input_size" ∉ sd.map Prod.fst) :
    load_checkpoint_file (bareRecordFile sd) =
      .error (.keyError "input_size") := by
  have hkeys : "input_size" ∉
      (sd.map fun p => (p.1, PyValue.tensor p.2)).map Prod.fst := by
    simpa [List.map_map, Function.comp] using h
  have hd := dictGet_absent _ "input_size" hkeys
  simp only [load_checkpoint_file, bareRecordFile]
  rw [hd]
  rfl

/-- C10 witness: the state dict the notebook saves bare (the trained
512-architecture record) has no `input_size` key, and loading that file
fails with the key error. -/
theorem C10_bare_record_fails_witness :
    "input_size" ∉ net512.state_dict.map Prod.fst ∧
    load_checkpoint_file (bareRecordFile net512.state_dict) =
      .error (.keyError "input_size") :=
  ⟨by decide, C10_bare_record_fails net512.state_dict (by decide)⟩
